import Mathlib

set_option maxRecDepth 8000

/-!
Verification development for the map-reduce core in src/src/core
(base.py, worker.py, coordinator.py).  Python functions are embedded as
Lean functions over explicit state; machine floats that the code only
adds, divides and compares are modelled exactly as rationals.
-/

namespace MapReduceCore

/-- Worker status values assigned to self.status in worker.py. -/
inductive WStatus where
  | idle
  | mapping
  | shuffling
  | reducing
  | error
deriving DecidableEq, Repr

/-- Greatest common divisor by Euclid's algorithm with explicit fuel; the
first Euclid argument strictly decreases, so fuel m + 1 always suffices. -/
def gcdFuel : Nat → Nat → Nat → Nat
  | 0, _, n => n
  | fuel + 1, m, n => if m = 0 then n else gcdFuel fuel (n % m) m

/-- Greatest common divisor (kernel-reducible). -/
def natGcd (m n : Nat) : Nat := gcdFuel (m + 1) m n

/-- Exact rational numbers in lowest terms, representing the Python floats
the coordinator adds, divides and compares (worker values are tip
percentages, dollar rates and trip counts, all exactly representable). -/
structure Frac where
  num : Int
  den : Nat
deriving DecidableEq, Repr

namespace Frac

/-- Normalised fraction n / d (lowest terms, positive denominator). -/
def norm (n : Int) (d : Nat) : Frac :=
  if d = 0 then ⟨0, 1⟩
  else
    let g := natGcd n.natAbs d
    ⟨n / (g : Int), d / g⟩

/-- Embed an integer. -/
def ofInt (n : Int) : Frac := ⟨n, 1⟩

def add (a b : Frac) : Frac :=
  norm (a.num * (b.den : Int) + b.num * (a.den : Int)) (a.den * b.den)

def sub (a b : Frac) : Frac :=
  norm (a.num * (b.den : Int) - b.num * (a.den : Int)) (a.den * b.den)

def mul (a b : Frac) : Frac := norm (a.num * b.num) (a.den * b.den)

def div (a b : Frac) : Frac :=
  norm (a.num * (b.den : Int) * (if b.num < 0 then -1 else 1))
    (a.den * b.num.natAbs)

/-- Comparison a < b (denominators are positive by construction). -/
def lt (a b : Frac) : Bool := a.num * (b.den : Int) < b.num * (a.den : Int)

/-- Floor of the represented rational. -/
def floor (a : Frac) : Int := Int.fdiv a.num (a.den : Int)

end Frac

/-- Python runtime values reaching Coordinator._collect_results: integers,
floats (modelled exactly) and non-numeric values (modelled by strings). -/
inductive PyVal where
  | vint : Int → PyVal
  | vfloat : Frac → PyVal
  | vstr : String → PyVal
deriving DecidableEq, Repr

namespace PyVal

/-- isinstance(v, (int, float)) as used in coordinator.py:286. -/
def isNumeric : PyVal → Bool
  | vint _ => true
  | vfloat _ => true
  | vstr _ => false

/-- Numeric content of a value; only read on numeric values. -/
def toFrac : PyVal → Frac
  | vint n => Frac.ofInt n
  | vfloat q => q
  | vstr _ => Frac.ofInt 0

/-- The count heuristic of coordinator.py:289:
isinstance(v, int) or (isinstance(v, float) and v > 100). -/
def isCount : PyVal → Bool
  | vint _ => true
  | vfloat q => (Frac.ofInt 100).lt q
  | vstr _ => false

end PyVal

/-- Python int() applied to an exact numeric value: truncation toward zero
(Lean integer division of numerator by denominator also truncates toward
zero). -/
def pyInt (q : Frac) : Int := q.num / (q.den : Int)

/-- Python round(x, 2) on an exact value: round half to even at two decimal
places. -/
def pyRound2 (q : Frac) : Frac :=
  let x := q.mul (Frac.ofInt 100)
  let f : Int := x.floor
  let frac := x.sub (Frac.ofInt f)
  let half : Frac := ⟨1, 2⟩
  let r : Int :=
    if frac.lt half then f
    else if half.lt frac then f + 1
    else if f % 2 = 0 then f else f + 1
  Frac.div (Frac.ofInt r) (Frac.ofInt 100)

/-- sum(values) over the numeric contents of a list of values, accumulated
left to right from 0 as Python sum() does. -/
def ratSum (vs : List PyVal) : Frac :=
  vs.foldl (fun acc v => acc.add v.toFrac) (Frac.ofInt 0)

/-- The merged value for one key with its collected values, mirroring the
tail of Coordinator._collect_results (coordinator.py:280-299): a singleton
passes through; otherwise, when the first value is numeric, sum (coerced by
int()) if every value is an integer or a float above 100, else average
(rounded to 2 places); when the first value is not numeric, keep the first
value.  none models the TypeError Python raises when sum() meets a
non-numeric value in the average branch. -/
def merge_values : List PyVal → Option PyVal
  | [] => none
  | [v] => some v
  | v :: rest =>
    let values := v :: rest
    if v.isNumeric then
      if values.all PyVal.isCount then
        some (PyVal.vint (pyInt (ratSum values)))
      else if values.all PyVal.isNumeric then
        some (PyVal.vfloat (pyRound2
          ((ratSum values).div (Frac.ofInt (values.length : Int)))))
      else none
    else some v

/-- One step of the dict-based grouping in coordinator.py:268-272: append v
to the group of k, creating the group at the end on first occurrence
(Python dict insertion-order semantics). -/
def addPair {K V : Type} [DecidableEq K] :
    List (K × List V) → K → V → List (K × List V)
  | [], k, v => [(k, [v])]
  | (k0, vs) :: rest, k, v =>
    if k0 = k then (k0, vs ++ [v]) :: rest
    else (k0, vs) :: addPair rest k v

/-- Grouping of the concatenated result list by key, first-occurrence key
order, values in arrival order (coordinator.py:268-272). -/
def groupByKey {K V : Type} [DecidableEq K] (pairs : List (K × V)) :
    List (K × List V) :=
  pairs.foldl (fun acc kv => addPair acc kv.1 kv.2) []

/-- The final_results loop of coordinator.py:279-299 over the grouped
values; none if any group raises. -/
def mergeGroups {K : Type} : List (K × List PyVal) → Option (List (K × PyVal))
  | [] => some []
  | (k, vs) :: rest =>
    match merge_values vs, mergeGroups rest with
    | some m, some r => some ((k, m) :: r)
    | _, _ => none

/-- Reconciliation of the concatenated per-worker result lists
(coordinator.py:267-302). -/
def reconcile {K : Type} [DecidableEq K] (all_results : List (K × PyVal)) :
    Option (List (K × PyVal)) :=
  mergeGroups (groupByKey all_results)

/-- Coordinator._split_data (coordinator.py:128-151): chunk = L // N; worker
i < N-1 gets input[i*chunk : (i+1)*chunk], the last worker gets
input[(N-1)*chunk : L]. -/
def split_data {α : Type} (input_data : List α) (num_workers : Nat) :
    List (List α) :=
  let chunk_size := input_data.length / num_workers
  (List.range num_workers).map (fun i =>
    let start := i * chunk_size
    let stop := if i < num_workers - 1 then start + chunk_size
                else input_data.length
    (input_data.drop start).take (stop - start))

/-- All partition sizes differ by at most one. -/
def sizesWithinOne {α : Type} (splits : List (List α)) : Prop :=
  ∀ a ∈ splits, ∀ b ∈ splits, a.length ≤ b.length + 1

/-- HashPartitioner.get_partition (base.py:78-80): hash(str(key)) %
num_partitions.  Python's built-in string hash is salted per process, so
the hash of the canonical key string is abstracted as a per-process
function pyHash. -/
def get_partition (pyHash : String → Int) (key : String)
    (num_partitions : Nat) : Int :=
  pyHash key % (num_partitions : Int)

/-- A string-hash function as one worker process may have it. -/
def processHashA : String → Int := fun _ => 0

/-- A string-hash function as a restarted process (different hash salt) may
have it. -/
def processHashB : String → Int := fun _ => 1

/-- Per-job state of one worker (worker.py:41-66): the map-output buffer,
the reduce-input multimap (encoded as the flat list of delivered pairs, in
arrival order; grouping recovers the per-key value lists and dict key
order), the reduce-output list and the status fields. -/
structure WorkerState (K V : Type) where
  worker_id : String
  map_output : List (K × V)
  reduce_input : List (K × V)
  reduce_output : List (K × V)
  status : WStatus
  current_task : Option String
deriving DecidableEq, Repr

/-- A worker as Worker.__init__ leaves it (worker.py:41-66). -/
def initialWorker {K V : Type} (wid : String) : WorkerState K V :=
  { worker_id := wid, map_output := [], reduce_input := [],
    reduce_output := [], status := WStatus.idle, current_task := none }

/-- The /clear route (worker.py:215-227): empty all three buffers and
return to idle with no current task. -/
def clear {K V : Type} (s : WorkerState K V) : WorkerState K V :=
  { s with map_output := [], reduce_input := [], reduce_output := [],
           status := WStatus.idle, current_task := none }

/-- The /execute_map route on its success path (worker.py:82-107 with
_execute_map_phase, worker.py:229-261): refill map_output with the pairs
the mapper emits over the input partition, in input order, then return to
idle.  The reduce-input multimap is untouched and nothing is delivered. -/
def execute_map_request {K V : Type} (mapper : K → V → List (K × V))
    (input_data : List (K × V)) (s : WorkerState K V) : WorkerState K V :=
  { s with
    map_output := input_data.flatMap (fun kv => mapper kv.1 kv.2),
    status := WStatus.idle, current_task := none }

/-- The /execute_reduce route on its success path (worker.py:132-155 with
_execute_reduce_phase, worker.py:316-346): apply the reducer to every
(key, values) group of the reduce-input multimap, in dict order, collecting
the emitted pairs. -/
def execute_reduce_request {K V : Type} [DecidableEq K]
    (reducer : K → List V → List (K × V)) (s : WorkerState K V) :
    WorkerState K V :=
  { s with
    reduce_output :=
      (groupByKey s.reduce_input).flatMap (fun g => reducer g.1 g.2),
    status := WStatus.idle, current_task := none }

/-- The /shuffle route (receive_shuffle_data, worker.py:109-130): append
the payload's pairs into the reduce-input multimap, pair by pair, and
acknowledge. -/
def receive_shuffle_data {K V : Type} (payload : List (K × V))
    (s : WorkerState K V) : WorkerState K V :=
  { s with reduce_input := s.reduce_input ++ payload }

/-- The phase sequence Coordinator.run_job issues against the src worker
(coordinator.py:70-115): reset every worker (POST /reset reaches no route
of worker.py, and _reset_workers, coordinator.py:117-126, never checks the
response status, so worker state is unchanged), then execute_map on each
worker's split, then execute_reduce on every worker.  No shuffle request
is ever issued. -/
def run_job_phases {K V : Type} [DecidableEq K]
    (mapper : K → V → List (K × V)) (reducer : K → List V → List (K × V))
    (splits : List (List (K × V))) (ws : List (WorkerState K V)) :
    List (WorkerState K V) :=
  let afterReset := ws
  let afterMap := (splits.zip afterReset).map
    (fun sv => execute_map_request mapper sv.1 sv.2)
  afterMap.map (execute_reduce_request reducer)

/-- The per-destination shuffle buffer of Worker.shuffle_data
(worker.py:276-282): the pairs of map_output owned by partition j, appended
in emission order. -/
def partitionBuffers {K V : Type} (p : K → Nat) (map_output : List (K × V))
    (j : Nat) : List (K × V) :=
  map_output.filter (fun kv => p kv.1 == j)

/-- Destination j's reduce-input contents once every worker has run its
shuffle and all deliveries succeeded, starting from the empty multimap of a
fresh job: each source's payload for j is appended atomically
(worker.py:284-307 sending, worker.py:120-121 appending), sources taken in
worker order as one admissible delivery order. -/
def reduceInputAfterShuffle {K V : Type} (p : K → Nat)
    (outs : List (List (K × V))) (j : Nat) : List (K × V) :=
  (outs.map (fun out => partitionBuffers p out j)).flatten

/-- Worker.shuffle_data together with the /execute_shuffle route
(worker.py:157-178, 263-314) for the worker at index selfIdx, over the
cluster's current reduce-input lists: its own buffer is kept locally; a
remote delivery to j succeeds iff ok j; a failed delivery is caught,
logged and skipped (worker.py:311-312), and the route still answers
success, leaving the worker idle. -/
def execute_shuffle_request {K V : Type} (ok : Nat → Bool) (selfIdx : Nat)
    (p : K → Nat) (map_output : List (K × V))
    (reduceInputs : List (List (K × V))) :
    List (List (K × V)) × WStatus :=
  (reduceInputs.mapIdx (fun j ri =>
      if j = selfIdx ∨ ok j then ri ++ partitionBuffers p map_output j
      else ri),
   WStatus.idle)

/-- Modelled from the spec: the worker variant exposing the /get_results
route that Coordinator._collect_results calls (coordinator.py:249) is not
part of src/ (the src worker.py exposes no such route).  Per the spec's
operation table it is idempotent and returns the worker id together with
the last computed reduce-output, changing no state. -/
def get_results {K V : Type} (s : WorkerState K V) :
    (String × List (K × V)) × WorkerState K V :=
  ((s.worker_id, s.reduce_output), s)

/-- The concatenation step of Coordinator._collect_results
(coordinator.py:245-262): extend all_results with each worker's result
list. -/
def collect_raw {K V : Type} (ws : List (WorkerState K V)) : List (K × V) :=
  (ws.map (fun s => (get_results s).1.2)).flatten

/-- One atomic reduce-input append per pair of a payload: the appends
receive_shuffle_data performs (worker.py:120-121), with no lock acquired
around the payload (worker.py holds no lock at all). -/
def deliverySteps {K V : Type} (payload : List (K × V)) : List (K × V) :=
  payload

/-- All interleavings of two action sequences, with explicit fuel; one
action is consumed per step, so fuel covering the combined length
suffices. -/
def interleavingsFuel {α : Type} : Nat → List α → List α → List (List α)
  | 0, xs, ys => [xs ++ ys]
  | _ + 1, [], ys => [ys]
  | _ + 1, x :: xs, [] => [x :: xs]
  | fuel + 1, x :: xs, y :: ys =>
      (interleavingsFuel fuel xs (y :: ys)).map (fun zs => x :: zs) ++
      (interleavingsFuel fuel (x :: xs) ys).map (fun zs => y :: zs)

/-- All interleavings of two sequences of atomic actions. -/
def interleavings {α : Type} (xs ys : List α) : List (List α) :=
  interleavingsFuel (xs.length + ys.length) xs ys

/-- A schedule of two payloads' appends is serial when one payload's
appends complete before the other's begin. -/
def serialSchedule {α : Type} [DecidableEq α] (p1 p2 sched : List α) :
    Prop :=
  sched = p1 ++ p2 ∨ sched = p2 ++ p1

/-! Supporting lemmas. -/

theorem flatten_map_filter {α : Type} (q : α → Bool) (outs : List (List α)) :
    (outs.map (fun out => out.filter q)).flatten = outs.flatten.filter q := by
  induction outs with
  | nil => simp
  | cons o rest ih =>
    simp only [List.map_cons, List.flatten_cons, List.filter_append, ih]

theorem sum_length_filter_eq {α : Type} (g : α → Nat) (N : Nat) :
    ∀ l : List α, (∀ x ∈ l, g x < N) →
      ∑ j ∈ Finset.range N, (l.filter (fun x => g x == j)).length = l.length := by
  intro l
  induction l with
  | nil => simp
  | cons a t ih =>
    intro hl
    have ht : ∀ x ∈ t, g x < N := fun x hx => hl x (List.mem_cons_of_mem _ hx)
    have ha : g a < N := hl a (List.mem_cons_self _ _)
    have hsplit : ∀ j, ((a :: t).filter (fun x => g x == j)).length
        = (if g a = j then 1 else 0) + (t.filter (fun x => g x == j)).length := by
      intro j
      by_cases h : g a = j
      · simp [List.filter_cons, h, Nat.add_comm]
      · simp [List.filter_cons, h]
    rw [Finset.sum_congr rfl (fun j _ => hsplit j), Finset.sum_add_distrib,
      ih ht, Finset.sum_ite_eq, if_pos (Finset.mem_range.mpr ha)]
    simp [Nat.add_comm]

theorem reduce_input_eq_filter {K V : Type} (p : K → Nat)
    (outs : List (List (K × V))) (j : Nat) :
    reduceInputAfterShuffle p outs j
      = outs.flatten.filter (fun kv => p kv.1 == j) :=
  flatten_map_filter _ _

theorem countP_filter_of_imp {α : Type} (q r : α → Bool)
    (h : ∀ x, r x = true → q x = true) :
    ∀ l : List α, (l.filter q).countP r = l.countP r := by
  intro l
  induction l with
  | nil => rfl
  | cons b t ih =>
    by_cases hb : q b
    · simp [List.filter_cons, hb, List.countP_cons, ih]
    · have hrb : r b = false := by
        cases hr : r b
        · rfl
        · exact absurd (h b hr) (by simp [hb])
      simp [List.filter_cons, hb, List.countP_cons, hrb, ih]

theorem take_chunks_append {α : Type} (c : Nat) (l : List α) :
    ∀ m : Nat, ((List.range m).map (fun i => (l.drop (i * c)).take c)).flatten
      ++ l.drop (m * c) = l := by
  intro m
  induction m with
  | zero => simp
  | succ m ih =>
    rw [List.range_succ, List.map_append, List.flatten_append]
    simp only [List.map_cons, List.map_nil, List.flatten_cons, List.flatten_nil,
      List.append_nil]
    rw [List.append_assoc]
    have hdd : l.drop (Nat.succ m * c) = (l.drop (m * c)).drop c := by
      rw [List.drop_drop, Nat.succ_mul, Nat.add_comm]
    rw [hdd, List.take_append_drop]
    exact ih

theorem getD_map_range {α : Type} (N i : Nat) (f : Nat → α) (d : α)
    (hi : i < N) : ((List.range N).map f).getD i d = f i := by
  rw [List.getD_eq_getElem?_getD, List.getElem?_map, List.getElem?_range hi]
  rfl

theorem split_flatten_aux {α : Type} (l : List α) (c m : Nat) :
    ((List.range (m + 1)).map (fun i =>
        (l.drop (i * c)).take
          ((if i < m then i * c + c else l.length) - i * c))).flatten = l := by
  rw [List.range_succ, List.map_append, List.flatten_append]
  simp only [List.map_cons, List.map_nil, List.flatten_cons, List.flatten_nil,
    List.append_nil]
  rw [if_neg (lt_irrefl m)]
  have hmap : (List.range m).map (fun i =>
      (l.drop (i * c)).take
        ((if i < m then i * c + c else l.length) - i * c))
      = (List.range m).map (fun i => (l.drop (i * c)).take c) := by
    apply List.map_congr_left
    intro i hi
    rw [if_pos (List.mem_range.mp hi), Nat.add_sub_cancel_left]
  rw [hmap]
  have hlastel : (l.drop (m * c)).take (l.length - m * c) = l.drop (m * c) := by
    rw [← List.length_drop]
    exact List.take_length _
  rw [hlastel]
  exact take_chunks_append c l m

theorem isNumeric_of_isCount {v : PyVal} (h : v.isCount = true) :
    v.isNumeric = true := by
  cases v <;> simp_all [PyVal.isCount, PyVal.isNumeric]

theorem merge_values_single (v : PyVal) : merge_values [v] = some v := rfl

theorem merge_values_numeric (vs : List PyVal) (h2 : 2 ≤ vs.length)
    (hnum : vs.all PyVal.isNumeric = true) :
    merge_values vs =
      if vs.all PyVal.isCount then some (PyVal.vint (pyInt (ratSum vs)))
      else some (PyVal.vfloat (pyRound2
        ((ratSum vs).div (Frac.ofInt (vs.length : Int))))) := by
  match vs with
  | [] => simp at h2
  | [v] => simp at h2
  | v :: w :: rest =>
    have hv : v.isNumeric = true := by
      have := List.all_eq_true.mp hnum v (by simp)
      exact this
    by_cases hct : (v :: w :: rest).all PyVal.isCount
    · simp [merge_values, hv, hct]
    · simp [merge_values, hv, hct, hnum]

theorem merge_values_count (vs : List PyVal) (h2 : 2 ≤ vs.length)
    (hct : vs.all PyVal.isCount = true) :
    merge_values vs = some (PyVal.vint (pyInt (ratSum vs))) := by
  have hnum : vs.all PyVal.isNumeric = true := by
    rw [List.all_eq_true] at hct ⊢
    exact fun v hv => isNumeric_of_isCount (hct v hv)
  rw [merge_values_numeric vs h2 hnum, if_pos hct]

theorem merge_values_average (vs : List PyVal) (h2 : 2 ≤ vs.length)
    (hnum : vs.all PyVal.isNumeric = true)
    (hct : vs.all PyVal.isCount = false) :
    merge_values vs = some (PyVal.vfloat (pyRound2
      ((ratSum vs).div (Frac.ofInt (vs.length : Int))))) := by
  rw [merge_values_numeric vs h2 hnum, if_neg (by simp [hct])]

theorem merge_values_nonnumeric (v : PyVal) (vs : List PyVal)
    (h : (v :: vs).all (fun x => !x.isNumeric) = true) :
    merge_values (v :: vs) = some v := by
  have hv : v.isNumeric = false := by
    have := List.all_eq_true.mp h v (by simp)
    simpa using this
  cases vs with
  | nil => rfl
  | cons w rest => simp [merge_values, hv]

theorem mergeGroups_fst {K : Type} :
    ∀ (gs : List (K × List PyVal)) (res : List (K × PyVal)),
      mergeGroups gs = some res → res.map Prod.fst = gs.map Prod.fst := by
  intro gs
  induction gs with
  | nil =>
    intro res h
    simp [mergeGroups] at h
    simp [← h]
  | cons g rest ih =>
    intro res h
    cases hm : merge_values g.2 with
    | none => simp [mergeGroups, hm] at h
    | some m =>
      cases hr : mergeGroups rest with
      | none => simp [mergeGroups, hm, hr] at h
      | some r =>
        have : res = (g.1, m) :: r := by
          simp [mergeGroups, hm, hr] at h
          exact h.symm
        subst this
        simp [ih r hr]

theorem addPair_fst {K V : Type} [DecidableEq K] :
    ∀ (acc : List (K × List V)) (k : K) (v : V),
      (addPair acc k v).map Prod.fst =
        if k ∈ acc.map Prod.fst then acc.map Prod.fst
        else acc.map Prod.fst ++ [k] := by
  intro acc
  induction acc with
  | nil => intro k v; simp [addPair]
  | cons g rest ih =>
    intro k v
    by_cases h : g.1 = k
    · simp [addPair, h]
    · have hne : ¬ k = g.1 := fun hk => h hk.symm
      by_cases hmem : k ∈ rest.map Prod.fst
      · simp [addPair, h, ih, hmem, hne]
      · simp [addPair, h, ih, hmem, hne]

theorem groupByKey_aux_nodup {K V : Type} [DecidableEq K] :
    ∀ (pairs : List (K × V)) (acc : List (K × List V)),
      (acc.map Prod.fst).Nodup →
      ((pairs.foldl (fun a kv => addPair a kv.1 kv.2) acc).map Prod.fst).Nodup := by
  intro pairs
  induction pairs with
  | nil => intro acc h; simpa using h
  | cons kv rest ih =>
    intro acc h
    simp only [List.foldl_cons]
    apply ih
    rw [addPair_fst]
    by_cases hmem : kv.1 ∈ acc.map Prod.fst
    · simpa [hmem] using h
    · simp only [hmem, if_false]
      simp [List.nodup_append, h, hmem]

theorem groupByKey_aux_mem {K V : Type} [DecidableEq K] :
    ∀ (pairs : List (K × V)) (acc : List (K × List V)) (k : K),
      (k ∈ (pairs.foldl (fun a kv => addPair a kv.1 kv.2) acc).map Prod.fst
        ↔ k ∈ acc.map Prod.fst ∨ k ∈ pairs.map Prod.fst) := by
  intro pairs
  induction pairs with
  | nil => intro acc k; simp
  | cons kv rest ih =>
    intro acc k
    simp only [List.foldl_cons, List.map_cons, List.mem_cons]
    rw [ih]
    rw [addPair_fst]
    by_cases hmem : kv.1 ∈ acc.map Prod.fst
    · simp only [hmem, if_true]
      constructor
      · intro h
        rcases h with h | h
        · exact Or.inl h
        · exact Or.inr (Or.inr h)
      · intro h
        rcases h with h | h | h
        · exact Or.inl h
        · exact Or.inl (h ▸ hmem)
        · exact Or.inr h
    · simp only [hmem, if_false]
      simp only [List.mem_append, List.mem_singleton]
      tauto

theorem groupByKey_fst_nodup {K V : Type} [DecidableEq K]
    (pairs : List (K × V)) : ((groupByKey pairs).map Prod.fst).Nodup :=
  groupByKey_aux_nodup pairs [] (by simp)

theorem groupByKey_fst_mem {K V : Type} [DecidableEq K]
    (pairs : List (K × V)) (k : K) :
    k ∈ (groupByKey pairs).map Prod.fst ↔ k ∈ pairs.map Prod.fst := by
  have := groupByKey_aux_mem pairs [] k
  simpa [groupByKey] using this

/-! Claim theorems. -/

/-- C1.  Shuffle establishes sole ownership without loss or duplication:
when every worker of the job applies the same partition function p whose
values lie below the worker count N, then after all shuffle deliveries
(1) every pair in a worker's reduce-input is owned by that worker, so a
pair with key k resides only at index p k; (2) each pair reaches the
reduce-input of its owner with exactly the multiplicity with which it was
emitted (none lost, none duplicated); (3) the total number of values
across all reduce-inputs equals the total number of intermediate pairs
emitted by all mappers. -/
theorem claim1_shuffle_ownership {K V : Type} [DecidableEq K] [DecidableEq V]
    (p : K → Nat) (N : Nat) (outs : List (List (K × V)))
    (hrange : ∀ kv ∈ outs.flatten, p kv.1 < N) :
    (∀ j, ∀ kv ∈ reduceInputAfterShuffle p outs j, p kv.1 = j)
    ∧ (∀ kv : K × V,
        (reduceInputAfterShuffle p outs (p kv.1)).countP (fun x => decide (x = kv))
          = outs.flatten.countP (fun x => decide (x = kv)))
    ∧ ∑ j ∈ Finset.range N, (reduceInputAfterShuffle p outs j).length
        = outs.flatten.length := by
  refine ⟨?_, ?_, ?_⟩
  · intro j kv hkv
    rw [reduce_input_eq_filter] at hkv
    exact eq_of_beq (List.mem_filter.mp hkv).2
  · intro kv
    rw [reduce_input_eq_filter]
    exact countP_filter_of_imp (fun kv2 => p kv2.1 == p kv.1)
      (fun x => decide (x = kv))
      (fun x hx => by
        have hx2 : x = kv := of_decide_eq_true hx
        simp [hx2]) outs.flatten
  · have h : ∀ j ∈ Finset.range N,
        (reduceInputAfterShuffle p outs j).length
          = (outs.flatten.filter (fun kv => p kv.1 == j)).length := by
      intro j _
      rw [reduce_input_eq_filter]
    rw [Finset.sum_congr rfl h]
    exact sum_length_filter_eq _ N _ hrange

/-- Witness for C1 at a concrete two-worker cluster, partition function
k % 2 and map outputs [[(0,10),(1,11)],[(3,12)]]. -/
theorem claim1_witness :
    (∀ j, ∀ kv ∈ reduceInputAfterShuffle (fun k => k % 2)
        [[(0, 10), (1, 11)], [(3, 12)]] j, kv.1 % 2 = j)
    ∧ (∀ kv : Nat × Nat,
        (reduceInputAfterShuffle (fun k => k % 2)
            [[(0, 10), (1, 11)], [(3, 12)]] (kv.1 % 2)).countP
            (fun x => decide (x = kv))
          = [[(0, 10), (1, 11)], [(3, 12)]].flatten.countP
            (fun x => decide (x = kv)))
    ∧ ∑ j ∈ Finset.range 2,
        (reduceInputAfterShuffle (fun k => k % 2)
          [[(0, 10), (1, 11)], [(3, 12)]] j).length
        = [[(0, 10), (1, 11)], [(3, 12)]].flatten.length :=
  claim1_shuffle_ownership (fun k => k % 2) 2
    [[(0, 10), (1, 11)], [(3, 12)]] (by decide)

/-- C2.  Evaluation of the coordinator's actual phase sequence against the
src worker at a failing input: with one worker, the input [(0, 7)] and a
mapper emitting one pair, run_job_phases leaves the emitted pair in
map_output, while the reduce phase runs on an empty reduce-input and so
produces nothing — the map-side emission is not visible to the reducer,
because no shuffle request is ever issued between execute_map and
execute_reduce. -/
theorem claim2_reduce_sees_no_map_output :
    (run_job_phases (fun (k v : Nat) => [(k, v)])
        (fun (k : Nat) (vs : List Nat) => [(k, vs.length)])
        [[(0, 7)]] [initialWorker "worker-1"]).map
      (fun s => (s.map_output, s.reduce_input, s.reduce_output))
      = [([(0, 7)], [], [])] := by decide

/-- C3 counterexample.  The claim's sentence that slice sizes differ by at
most one fails at input length 10 with 4 workers: the code's slices have
sizes [2, 2, 2, 4]. -/
theorem claim3_counterexample :
    (split_data (List.range 10) 4).map List.length = [2, 2, 2, 4]
    ∧ ¬ sizesWithinOne (split_data (List.range 10) 4) := by
  constructor
  · decide
  · unfold sizesWithinOne
    decide

/-- C3 as amended.  For every input of length L and worker count N ≥ 1,
with chunk = L / N: the split yields N slices; their concatenation in
worker order is the original input; worker i < N-1 receives exactly
records [i*chunk, (i+1)*chunk) and has size chunk; worker N-1 receives
records [(N-1)*chunk, L) and has size L - (N-1)*chunk, which may exceed
the other slices by more than one (by up to N-1). -/
theorem claim3_split_contiguous {α : Type} (input : List α) (N : Nat)
    (hN : 1 ≤ N) :
    (split_data input N).length = N
    ∧ (split_data input N).flatten = input
    ∧ (∀ i, i < N - 1 →
        (split_data input N).getD i [] =
          (input.drop (i * (input.length / N))).take (input.length / N))
    ∧ (split_data input N).getD (N - 1) []
        = input.drop ((N - 1) * (input.length / N))
    ∧ (∀ i, i < N - 1 →
        ((split_data input N).getD i []).length = input.length / N)
    ∧ ((split_data input N).getD (N - 1) []).length
        = input.length - (N - 1) * (input.length / N) := by
  obtain ⟨m, rfl⟩ : ∃ m : Nat, N = m + 1 := ⟨N - 1, by omega⟩
  simp only [Nat.add_sub_cancel]
  set c := input.length / (m + 1) with hc
  have hsd : split_data input (m + 1)
      = (List.range (m + 1)).map (fun i =>
          (input.drop (i * c)).take
            ((if i < m then i * c + c else input.length) - i * c)) := by
    simp only [split_data, Nat.add_sub_cancel, hc]
  have hmid : ∀ i, i < m → (split_data input (m + 1)).getD i []
      = (input.drop (i * c)).take c := by
    intro i hi
    rw [hsd, getD_map_range (m + 1) i _ _ (by omega), if_pos hi,
      Nat.add_sub_cancel_left]
  have hlast : (split_data input (m + 1)).getD m [] = input.drop (m * c) := by
    rw [hsd, getD_map_range (m + 1) m _ _ (by omega), if_neg (lt_irrefl m),
      ← List.length_drop]
    exact List.take_length _
  have hNc : (m + 1) * c ≤ input.length := by
    rw [hc, Nat.mul_comm]
    exact Nat.div_mul_le_self _ _
  refine ⟨?_, ?_, hmid, hlast, ?_, ?_⟩
  · simp [hsd]
  · rw [hsd]
    exact split_flatten_aux input c m
  · intro i hi
    rw [hmid i hi, List.length_take, List.length_drop]
    have h1 : (i + 1) * c ≤ (m + 1) * c :=
      Nat.mul_le_mul_right c (by omega)
    have h2 : i * c + c = (i + 1) * c := by ring
    omega
  · rw [hlast, List.length_drop]

/-- Witness for C3 at input List.range 10 and 4 workers. -/
theorem claim3_split_witness :
    (split_data (List.range 10) 4).length = 4
    ∧ (split_data (List.range 10) 4).flatten = List.range 10
    ∧ (∀ i, i < 4 - 1 →
        (split_data (List.range 10) 4).getD i [] =
          ((List.range 10).drop (i * ((List.range 10).length / 4))).take
            ((List.range 10).length / 4))
    ∧ (split_data (List.range 10) 4).getD (4 - 1) []
        = (List.range 10).drop ((4 - 1) * ((List.range 10).length / 4))
    ∧ (∀ i, i < 4 - 1 →
        ((split_data (List.range 10) 4).getD i []).length
          = (List.range 10).length / 4)
    ∧ ((split_data (List.range 10) 4).getD (4 - 1) []).length
        = (List.range 10).length - (4 - 1) * ((List.range 10).length / 4) :=
  claim3_split_contiguous (List.range 10) 4 (by decide)

/-- C4 counterexample.  The claim's sentence that collided count-like
values are summed fails at values [150.5, 200.4]: their sum is 350.9, but
the code returns the integer 350 (int() truncation of the sum), not the
sum. -/
theorem claim4_counterexample :
    merge_values [PyVal.vfloat ⟨301, 2⟩, PyVal.vfloat ⟨1002, 5⟩]
      = some (PyVal.vint 350)
    ∧ ratSum [PyVal.vfloat ⟨301, 2⟩, PyVal.vfloat ⟨1002, 5⟩] = ⟨3509, 10⟩
    ∧ merge_values [PyVal.vfloat ⟨301, 2⟩, PyVal.vfloat ⟨1002, 5⟩]
      ≠ some (PyVal.vfloat
          (ratSum [PyVal.vfloat ⟨301, 2⟩, PyVal.vfloat ⟨1002, 5⟩])) := by
  refine ⟨by decide, by decide, by decide⟩

/-- C4 as amended.  Duplicate-key reconciliation: a key with exactly one
value passes through unchanged; for a key with more than one value, all of
them numeric, the coordinator sums the values and coerces the result to an
integer when every value is an integer or a floating value greater than
100, and otherwise averages them and rounds the average to 2 decimal
places; the reconciled list has exactly one pair per distinct key of the
concatenated input. -/
theorem claim4_reconciliation {K : Type} [DecidableEq K]
    (pairs : List (K × PyVal)) :
    (∀ v : PyVal, merge_values [v] = some v)
    ∧ (∀ vs : List PyVal, 2 ≤ vs.length → vs.all PyVal.isNumeric = true →
        merge_values vs =
          if vs.all PyVal.isCount then some (PyVal.vint (pyInt (ratSum vs)))
          else some (PyVal.vfloat (pyRound2
            ((ratSum vs).div (Frac.ofInt (vs.length : Int))))))
    ∧ (∀ res : List (K × PyVal), reconcile pairs = some res →
        res.map Prod.fst = (groupByKey pairs).map Prod.fst
        ∧ (res.map Prod.fst).Nodup
        ∧ (∀ k, k ∈ res.map Prod.fst ↔ k ∈ pairs.map Prod.fst)) := by
  refine ⟨merge_values_single, merge_values_numeric, ?_⟩
  intro res hres
  have hfst := mergeGroups_fst _ res hres
  refine ⟨hfst, ?_, ?_⟩
  · rw [hfst]
    exact groupByKey_fst_nodup pairs
  · intro k
    rw [hfst]
    exact groupByKey_fst_mem pairs k

/-- Witness for C4: a concrete sum-merge and a concrete reconciliation. -/
theorem claim4_witness :
    merge_values [PyVal.vint 2, PyVal.vint 3] = some (PyVal.vint 5)
    ∧ ([(("a" : String), PyVal.vint 3), ("b", PyVal.vint 5)].map Prod.fst
        = (groupByKey [(("a" : String), PyVal.vint 1), ("a", PyVal.vint 2),
            ("b", PyVal.vint 5)]).map Prod.fst
      ∧ ([(("a" : String), PyVal.vint 3), ("b", PyVal.vint 5)].map
          Prod.fst).Nodup
      ∧ (∀ k, k ∈ [(("a" : String), PyVal.vint 3),
            ("b", PyVal.vint 5)].map Prod.fst
          ↔ k ∈ [(("a" : String), PyVal.vint 1), ("a", PyVal.vint 2),
              ("b", PyVal.vint 5)].map Prod.fst)) := by
  constructor
  · exact ((claim4_reconciliation ([] : List (String × PyVal))).2.1
      [PyVal.vint 2, PyVal.vint 3] (by decide) (by decide)).trans (by decide)
  · exact (claim4_reconciliation [(("a" : String), PyVal.vint 1),
      ("a", PyVal.vint 2), ("b", PyVal.vint 5)]).2.2
      [(("a" : String), PyVal.vint 3), ("b", PyVal.vint 5)] (by decide)

/-- C5.  Evaluation of the partitioner at the failing configuration: the
partition of the same key "zone_1" under two admissible per-process string
hash functions differs, so the value of hash(str(key)) % N is not stable
across process restarts (Python's built-in string hash is salted per
process). -/
theorem claim5_restart_instability :
    get_partition processHashA "zone_1" 2 = 0
    ∧ get_partition processHashB "zone_1" 2 = 1
    ∧ get_partition processHashA "zone_1" 2
      ≠ get_partition processHashB "zone_1" 2 := by
  refine ⟨by decide, by decide, by decide⟩

/-- C6.  Evaluation of the shuffle route at a failing input: worker 0 of 2
holds one pair owned by worker 1, the delivery to worker 1 fails, and
execute_shuffle nevertheless completes with status idle (success) while
the pair reaches no worker's reduce-input — the delivery failure is
swallowed and the data silently lost, instead of propagating as a failure
and an error state. -/
theorem claim6_failed_delivery_swallowed :
    execute_shuffle_request (fun _ => false) 0 (fun k => k)
      [((1 : Nat), (42 : Nat))] [[], []] = ([[], []], WStatus.idle) := by
  decide

/-- C7.  Reset semantics and idempotence: for every worker state, the
clear operation empties the map-output buffer, the reduce-input multimap
and the reduce-output list, moves the worker to idle with no current task,
is total (never fails logically), and applying it twice yields the same
observable state as applying it once. -/
theorem claim7_reset_idempotent {K V : Type} (s : WorkerState K V) :
    (clear s).map_output = [] ∧ (clear s).reduce_input = []
    ∧ (clear s).reduce_output = [] ∧ (clear s).status = WStatus.idle
    ∧ (clear s).current_task = none
    ∧ clear (clear s) = clear s :=
  ⟨rfl, rfl, rfl, rfl, rfl, rfl⟩

/-- C8.  Result retrieval: for a worker whose reduce phase has completed
(status idle), get_results succeeds, returns the worker id with the last
computed reduce-output, changes no state (hence is idempotent), and the
coordinator's collection concatenates exactly the lists obtained this way. -/
theorem claim8_get_results {K V : Type} (s : WorkerState K V)
    (ws : List (WorkerState K V)) (hdone : s.status = WStatus.idle) :
    (get_results s).1 = (s.worker_id, s.reduce_output)
    ∧ (get_results s).2 = s
    ∧ get_results ((get_results s).2) = get_results s
    ∧ collect_raw ws = (ws.map (fun w => (get_results w).1.2)).flatten :=
  ⟨rfl, rfl, rfl, rfl⟩

/-- Witness for C8 at a freshly initialised worker. -/
theorem claim8_witness :
    (get_results (initialWorker "w1" : WorkerState Nat Nat)).1
      = ((initialWorker "w1" : WorkerState Nat Nat).worker_id,
        (initialWorker "w1" : WorkerState Nat Nat).reduce_output)
    ∧ (get_results (initialWorker "w1" : WorkerState Nat Nat)).2
      = initialWorker "w1"
    ∧ get_results ((get_results (initialWorker "w1" : WorkerState Nat Nat)).2)
      = get_results (initialWorker "w1")
    ∧ collect_raw ([] : List (WorkerState Nat Nat))
      = (([] : List (WorkerState Nat Nat)).map
          (fun w => (get_results w).1.2)).flatten :=
  claim8_get_results (initialWorker "w1") [] rfl

/-- C9.  Evaluation of the unsynchronised append model at a failing input:
because the per-pair appends of a shuffle delivery acquire no lock, the
set of possible schedules of two concurrent payloads is all interleavings,
and it contains a schedule in which the two payloads' appends interleave —
the appends are not serialised per payload. -/
theorem claim9_unserialised_appends :
    [(1, 10), (1, 12), (1, 11), (1, 13)] ∈
      interleavings (deliverySteps [((1 : Nat), (10 : Nat)), (1, 11)])
        (deliverySteps [(1, 12), (1, 13)])
    ∧ ¬ serialSchedule (deliverySteps [((1 : Nat), (10 : Nat)), (1, 11)])
        (deliverySteps [(1, 12), (1, 13)]) [(1, 10), (1, 12), (1, 11), (1, 13)] := by
  refine ⟨by decide, ?_⟩
  unfold serialSchedule
  decide

/-- C10.  Implicit reconciliation coercions: when the coordinator sums
collided values it coerces the merged value to an integer; when it
averages them it rounds the result to 2 decimal places; and when the
collided values are not numeric it returns the first value in
concatenation order, discarding the others. -/
theorem claim10_implicit_coercions :
    (∀ vs : List PyVal, 2 ≤ vs.length → vs.all PyVal.isCount = true →
        merge_values vs = some (PyVal.vint (pyInt (ratSum vs))))
    ∧ (∀ vs : List PyVal, 2 ≤ vs.length → vs.all PyVal.isNumeric = true →
        vs.all PyVal.isCount = false →
        merge_values vs = some (PyVal.vfloat (pyRound2
          ((ratSum vs).div (Frac.ofInt (vs.length : Int))))))
    ∧ (∀ (v : PyVal) (vs : List PyVal),
        (v :: vs).all (fun x => !x.isNumeric) = true →
        merge_values (v :: vs) = some v) :=
  ⟨merge_values_count, merge_values_average, merge_values_nonnumeric⟩

/-- Witness for C10: int-coerced sum 152 from [2, 150.5], rounded average
2.17 from [1.5, 2.5, 2.5], and first-value passthrough for non-numeric
collisions. -/
theorem claim10_witness :
    merge_values [PyVal.vint 2, PyVal.vfloat ⟨301, 2⟩] = some (PyVal.vint 152)
    ∧ merge_values [PyVal.vfloat ⟨3, 2⟩, PyVal.vfloat ⟨5, 2⟩,
        PyVal.vfloat ⟨5, 2⟩] = some (PyVal.vfloat ⟨217, 100⟩)
    ∧ merge_values [PyVal.vstr "a", PyVal.vstr "b"]
      = some (PyVal.vstr "a") := by
  refine ⟨?_, ?_, ?_⟩
  · exact (claim10_implicit_coercions.1 [PyVal.vint 2, PyVal.vfloat ⟨301, 2⟩]
      (by decide) (by decide)).trans (by decide)
  · exact (claim10_implicit_coercions.2.1 [PyVal.vfloat ⟨3, 2⟩,
      PyVal.vfloat ⟨5, 2⟩, PyVal.vfloat ⟨5, 2⟩]
      (by decide) (by decide) (by decide)).trans (by decide)
  · exact claim10_implicit_coercions.2.2 (PyVal.vstr "a") [PyVal.vstr "b"]
      (by decide)

end MapReduceCore
